import Mathlib

/-!  Verification development for the Advent-of-Code 2020 day 4
"passport processing" library: a shallow embedding of
`src/04-passport-processing/src/lib.rs` (and of the line-splitting done by
`shared::read_file`), together with theorems settling the stated properties
of the parsing state machine and of the two validation modes.

Strings are modelled as `List Char`.  The character classes of the regular
expressions involved (`\s`, `\d`, `\w`, `[0-9a-f]`) are modelled over their
ASCII fragment, which is the fragment the program's inputs exercise.  A
Rust panic (out-of-bounds indexing) is modelled by the value `none` of an
outer `Option` layer.  -/

/-- The characters of a string literal. -/
def chars (s : String) : List Char := s.data

/-- ASCII fragment of the regex class `\s` (the `\s+` separator regex) and
of `char::is_whitespace` as used by `str::trim`. -/
def wsChar (c : Char) : Bool :=
  c == ' ' || c == '\t' || c == '\n' || c == '\r' || c == '\x0B' || c == '\x0C'

/-- ASCII fragment of the regex class `\d`. -/
def isDigitChar (c : Char) : Bool := c.isDigit

/-- ASCII fragment of the regex class `\w`. -/
def isWordChar (c : Char) : Bool := c.isAlphanum || c == '_'

/-- The character class `[0-9a-f]` of `HCL_REGEX`. -/
def isHexLower (c : Char) : Bool := c.isDigit || ('a' ≤ c && c ≤ 'f')

/-- Rust `str::trim` (ASCII-whitespace fragment). -/
def trimStr (cs : List Char) : List Char :=
  ((cs.dropWhile wsChar).reverse.dropWhile wsChar).reverse

/-- `SPACES.split(line)` for `SPACES = \s+`: the pieces of the line between
maximal whitespace runs, keeping the empty pieces a leading or trailing run
produces (exactly the Rust `Regex::split` semantics). -/
def splitWsRuns : List Char → List (List Char)
  | [] => [[]]
  | c :: cs =>
    if wsChar c then
      match cs with
      | [] => [[], []]
      | c2 :: _ => if wsChar c2 then splitWsRuns cs else [] :: splitWsRuns cs
    else
      match splitWsRuns cs with
      | [] => [[c]]
      | t :: ts => (c :: t) :: ts

/-- Rust `str::split(':')`: the pieces of the token between the colons
(always at least one piece, possibly empty). -/
def splitColon : List Char → List (List Char)
  | [] => [[]]
  | c :: cs =>
    if c = ':' then [] :: splitColon cs
    else
      match splitColon cs with
      | [] => [[c]]
      | t :: ts => (c :: t) :: ts

/-- `vec[0]` of the colon-split of a token: the text before the first colon. -/
def keyOf (tok : List Char) : List Char := (splitColon tok).headD []

-- -- ReadState enum --

inductive ReadState where
  | Empty
  | Line
  deriving DecidableEq

inductive PassportField where
  | Num (val : Nat)
  | Str (val : List Char)
  deriving DecidableEq

inductive PassportProcessError where
  | UnknownKey (s : List Char)
  | UnparsableU32 (s : List Char)
  deriving DecidableEq

inductive PassportInvalid where
  | MissingField (key : List Char)
  | OutOfRange (key val : List Char)
  | InvalidFormat (key val : List Char)
  deriving DecidableEq

/-- The key a violation is about. -/
def vKey : PassportInvalid → List Char
  | .MissingField k => k
  | .OutOfRange k _ => k
  | .InvalidFormat k _ => k

-- -- Passport struct --

structure Passport where
  fields : List (List Char × PassportField)
  deriving DecidableEq

def Passport.new : Passport := ⟨[]⟩

/-- `self.fields.get(key)`: the map is modelled as an association list in
which the most recent insertion comes first. -/
def Passport.get (p : Passport) (k : List Char) : Option PassportField :=
  (p.fields.find? (fun e => e.1 == k)).map (fun e => e.2)

/-- `self.fields.insert(key, val)`: last write wins. -/
def Passport.insert (p : Passport) (k : List Char) (v : PassportField) : Passport :=
  ⟨(k, v) :: p.fields⟩

def PASSPORT_REQ_KEYS : List (List Char) :=
  [chars "byr", chars "eyr", chars "iyr", chars "ecl", chars "hcl", chars "hgt", chars "pid"]

/-- The keys of the `"byr" | "eyr" | "iyr"` match arm of `Passport::process`. -/
def CATALOG_NUM_KEYS : List (List Char) := [chars "byr", chars "eyr", chars "iyr"]

/-- The keys of the `"ecl" | "hcl" | "hgt" | "pid" | "cid"` match arm. -/
def CATALOG_STR_KEYS : List (List Char) :=
  [chars "ecl", chars "hcl", chars "hgt", chars "pid", chars "cid"]

def CATALOG_KEYS : List (List Char) := CATALOG_NUM_KEYS ++ CATALOG_STR_KEYS

/-- The numeric value of a non-empty decimal digit string. -/
def natOfDigits (ds : List Char) : Nat :=
  ds.foldl (fun acc c => 10 * acc + (c.toNat - '0'.toNat)) 0

/-- Rust `str::parse::<u32>`: an optional leading `+`, then one or more
decimal digits, rejecting the empty digit string and values that overflow
`u32`. -/
def parseU32 (cs : List Char) : Option Nat :=
  let ds := match cs with
    | '+' :: rest => rest
    | _ => cs
  if ds ≠ [] ∧ ds.all isDigitChar ∧ natOfDigits ds < 2 ^ 32 then some (natOfDigits ds)
  else none

/-- One iteration of the token loop of `Passport::process`: `vec` is the
colon-split of the token, `vec[0]` is matched against the key catalog, and
the accesses to `vec[1]` panic (modelled by `none`) when the token holds no
colon. -/
def processToken (p : Passport) (tok : List Char) :
    Option (Except PassportProcessError Passport) :=
  let vec := splitColon tok
  let key := vec.headD []
  if key ∈ CATALOG_NUM_KEYS then
    match vec.get? 1 with
    | none => none
    | some v1 =>
      match parseU32 v1 with
      | none => some (.error (.UnparsableU32 v1))
      | some n => some (.ok (p.insert key (.Num n)))
  else if key ∈ CATALOG_STR_KEYS then
    match vec.get? 1 with
    | none => none
    | some v1 => some (.ok (p.insert key (.Str v1)))
  else some (.error (.UnknownKey key))

/-- The token loop of `Passport::process` over an already-split line. -/
def processTokens (p : Passport) : List (List Char) → Option (Except PassportProcessError Passport)
  | [] => some (.ok p)
  | tok :: toks =>
    match processToken p tok with
    | none => none
    | some (.error e) => some (.error e)
    | some (.ok p') => processTokens p' toks

/-- `Passport::process`. -/
def Passport.process (p : Passport) (line : List Char) :
    Option (Except PassportProcessError Passport) :=
  processTokens p (splitWsRuns line)

-- -- validation --

/-- `Passport::validate_simplified`. -/
def Passport.validate_simplified (p : Passport) : Except (List PassportInvalid) Unit :=
  let invalids := PASSPORT_REQ_KEYS.flatMap (fun key =>
    match p.get key with
    | none => [PassportInvalid.MissingField key]
    | some _ => [])
  if invalids = [] then .ok () else .error invalids

/-- `Nat → decimal string`, for `val.to_string()` in the out-of-range arms. -/
def natRepr (n : Nat) : List Char := (Nat.repr n).data

/-- The capture groups of `HGT_REGEX = ^(\d+)(\w+)$` under the engine's
leftmost-first (greedy with backtracking) capture semantics: group 1 takes
the longest digit prefix that still leaves a non-empty suffix of word
characters for group 2.  In an anchored match of this pattern both groups
always participate, so the source's `if let (Some, Some)` fallback arm is
unreachable and the result is modelled as the pair of group texts. -/
def hgtCaptures (cs : List Char) : Option (List Char × List Char) :=
  let ds := cs.takeWhile isDigitChar
  let rest := cs.dropWhile isDigitChar
  if ds = [] then none
  else if rest = [] then
    if 2 ≤ ds.length then some (ds.dropLast, ds.drop (ds.length - 1)) else none
  else if rest.all isWordChar then some (ds, rest) else none

/-- The `hgt` arm of `Passport::validate`: the unit-suffix check and the
range/parse check are structurally independent, each pushing its own
violation. -/
def hgtCheck (val : List Char) : List PassportInvalid :=
  match hgtCaptures val with
  | none => [PassportInvalid.InvalidFormat (chars "hgt") val]
  | some (measure, unit) =>
    (if unit ≠ chars "cm" ∧ unit ≠ chars "in" then
      [PassportInvalid.InvalidFormat (chars "hgt") val]
    else []) ++
    (match parseU32 measure with
     | some h =>
       if (unit = chars "cm" ∧ ¬(150 ≤ h ∧ h ≤ 193)) ∨
          (unit = chars "in" ∧ ¬(59 ≤ h ∧ h ≤ 76)) then
         [PassportInvalid.OutOfRange (chars "hgt") val]
       else []
     | none => [PassportInvalid.InvalidFormat (chars "hgt") val])

/-- `HCL_REGEX = ^#[0-9a-f]{6}$`. -/
def hclMatch (cs : List Char) : Bool :=
  match cs with
  | '#' :: rest => rest.length == 6 && rest.all isHexLower
  | _ => false

/-- `PID_REGEX = ^\d{9}$`. -/
def pidMatch (cs : List Char) : Bool := cs.length == 9 && cs.all isDigitChar

def ECL_VALS : List (List Char) :=
  [chars "amb", chars "blu", chars "brn", chars "gry", chars "grn", chars "hzl", chars "oth"]

/-- One iteration of the key loop of `Passport::validate`: the guarded
match arms, with the `Some(_) => {}` arm as the final `else []` of each
branch and the `None` arm pushing `MissingField`. -/
def Passport.checkKey (p : Passport) (key : List Char) : List PassportInvalid :=
  match p.get key with
  | some (.Num val) =>
    if key = chars "byr" ∧ ¬(1920 ≤ val ∧ val ≤ 2002) then
      [PassportInvalid.OutOfRange key (natRepr val)]
    else if key = chars "iyr" ∧ ¬(2010 ≤ val ∧ val ≤ 2020) then
      [PassportInvalid.OutOfRange key (natRepr val)]
    else if key = chars "eyr" ∧ ¬(2020 ≤ val ∧ val ≤ 2030) then
      [PassportInvalid.OutOfRange key (natRepr val)]
    else []
  | some (.Str val) =>
    if key = chars "hgt" then hgtCheck val
    else if key = chars "hcl" ∧ ¬hclMatch val then [PassportInvalid.InvalidFormat key val]
    else if key = chars "ecl" ∧ ¬(val ∈ ECL_VALS) then [PassportInvalid.InvalidFormat key val]
    else if key = chars "pid" ∧ ¬pidMatch val then [PassportInvalid.InvalidFormat key val]
    else []
  | none => [PassportInvalid.MissingField key]

/-- The `invalids` list accumulated by the key loop of `Passport::validate`. -/
def Passport.validateList (p : Passport) : List PassportInvalid :=
  PASSPORT_REQ_KEYS.flatMap p.checkKey

/-- `Passport::validate`. -/
def Passport.validate (p : Passport) : Except (List PassportInvalid) Unit :=
  if p.validateList = [] then .ok () else .error p.validateList

-- -- other public functions --

/-- The line loop of `read_from_file`.  `none` models a panic escaping from
`Passport::process`; `some (.error _)` is the flattened
`"passport process error"`. -/
def readLoop : ReadState → List Passport → Passport → List (List Char) →
    Option (Except String (List Passport))
  | state, passports, passport, [] =>
    some (.ok (if state = ReadState.Line then passports ++ [passport] else passports))
  | state, passports, passport, line :: rest =>
    let trimmed := trimStr line
    if trimmed = [] then
      readLoop .Empty (if state = ReadState.Line then passports ++ [passport] else passports)
        passport rest
    else
      let current := if state = ReadState.Empty then Passport.new else passport
      match current.process trimmed with
      | none => none
      | some (.error _) => some (.error "passport process error")
      | some (.ok p') => readLoop .Line passports p' rest

/-- `read_from_file`, modelled from the point where `shared::read_file`
has produced the input's list of lines (the `contents.split('\n')`
sequence). -/
def read_from_file (lines : List (List Char)) : Option (Except String (List Passport)) :=
  readLoop .Empty [] Passport.new lines

-- -- specification-side grouping, for the record-per-run property --

/-- A line is blank iff it is empty after trimming surrounding whitespace. -/
def blankLine (l : List Char) : Bool := trimStr l == []

/-- The maximal runs of non-blank lines of an input, in input order. -/
def runsOf : List (List Char) → List (List (List Char))
  | [] => []
  | l :: ls =>
    if blankLine l then runsOf ls
    else
      match ls with
      | [] => [[l]]
      | l2 :: _ =>
        if blankLine l2 then [l] :: runsOf ls
        else
          match runsOf ls with
          | [] => [[l]]
          | t :: ts => (l :: t) :: ts

/-- Folding `Passport::process` over the (trimmed) lines of a run,
starting from a given record. -/
def buildFrom (p : Passport) : List (List Char) → Option (Except PassportProcessError Passport)
  | [] => some (.ok p)
  | l :: ls =>
    match p.process (trimStr l) with
    | none => none
    | some (.error e) => some (.error e)
    | some (.ok q) => buildFrom q ls

/-- The record built from one maximal run of non-blank lines. -/
def buildRun (run : List (List Char)) : Option (Except PassportProcessError Passport) :=
  buildFrom Passport.new run

/-- Structural decidable equality for `Except`, so that concrete runs of the
embedded functions can be checked by `decide`. -/
instance {ε α : Type} [DecidableEq ε] [DecidableEq α] : DecidableEq (Except ε α) := fun a b =>
  match a, b with
  | .error e, .error f => decidable_of_iff (e = f) (by simp)
  | .ok x, .ok y => decidable_of_iff (x = y) (by simp)
  | .error _, .ok _ => isFalse (by simp)
  | .ok _, .error _ => isFalse (by simp)

/-- The parse-time invariant of a record: every key of the field map is in
the fixed catalog, numeric-valued keys hold the `Num` variant and
text-valued keys hold the `Str` variant. -/
def PassportInv (p : Passport) : Prop :=
  ∀ k v, p.get k = some v →
    k ∈ CATALOG_KEYS ∧
    (k ∈ CATALOG_NUM_KEYS → ∃ n, v = PassportField.Num n) ∧
    (k ∈ CATALOG_STR_KEYS → ∃ s, v = PassportField.Str s)

-- -- helper lemmas about the colon split --

theorem splitColon_ne_nil (cs : List Char) : splitColon cs ≠ [] := by
  induction cs with
  | nil => simp [splitColon]
  | cons c cs ih =>
    rw [splitColon]
    split
    · simp
    · split <;> simp

theorem splitColon_head (cs : List Char) :
    (splitColon cs).head? = some (cs.takeWhile (fun c => !(c == ':'))) := by
  induction cs with
  | nil => simp [splitColon]
  | cons c cs ih =>
    rw [splitColon]
    by_cases hc : c = ':'
    · simp [hc]
    · rw [if_neg hc]
      cases h : splitColon cs with
      | nil => exact absurd h (splitColon_ne_nil cs)
      | cons t ts =>
        rw [h] at ih
        simp only [List.head?_cons, Option.some.injEq] at ih
        simp [List.takeWhile_cons, hc, ih]

theorem splitColon_key_front (key rest : List Char) (h : ∀ c ∈ key, ¬(c = ':')) :
    splitColon (key ++ ':' :: rest) = key :: splitColon rest := by
  induction key with
  | nil => simp [splitColon]
  | cons c key ih =>
    have hc : ¬(c = ':') := h c (by simp)
    have ih' := ih (fun x hx => h x (by simp [hx]))
    rw [List.cons_append, splitColon, if_neg hc, ih']

-- -- C1 --

/-- C1, corrected: `Passport::process` splits each token at every colon and
stores `vec[1]`, so the stored value-text of a text-valued field is the
segment of the token between its first and its second colon - the full
remainder after the first colon only when that remainder holds no further
colon. -/
theorem c1_value_between_colons (p : Passport) (key rest : List Char)
    (hkey : key ∈ CATALOG_STR_KEYS) :
    processToken p (key ++ ':' :: rest) =
      some (.ok (p.insert key (PassportField.Str
        (rest.takeWhile (fun c => !(c == ':')))))) := by
  have hnc : ∀ c ∈ key, ¬(c = ':') := by fin_cases hkey <;> decide
  have hnum : key ∉ CATALOG_NUM_KEYS := by fin_cases hkey <;> decide
  have hsplit := splitColon_key_front key rest hnc
  have hhead := splitColon_head rest
  simp only [processToken, hsplit, List.headD_cons, if_neg hnum, if_pos hkey,
    List.get?_cons_succ, List.get?_zero, hhead]

/-- C1 counterexample: on the token `hgt:1:2` the stored value-text is
`"1"`, the segment before the second colon, not the full remainder `"1:2"`
after the first colon. -/
theorem c1_counterexample :
    Passport.process Passport.new (chars "hgt:1:2") =
      some (.ok ⟨[(chars "hgt", PassportField.Str (chars "1"))]⟩) ∧
    ¬(chars "1" = chars "1:2") :=
  ⟨by decide, by decide⟩

/-- C1 witness: the corrected statement evaluated on the token `hgt:1:2`. -/
theorem c1_witness :
    processToken Passport.new (chars "hgt" ++ ':' :: chars "1:2") =
      some (.ok (Passport.new.insert (chars "hgt")
        (PassportField.Str ((chars "1:2").takeWhile (fun c => !(c == ':')))))) :=
  c1_value_between_colons Passport.new (chars "hgt") (chars "1:2") (by decide)


-- -- helper lemmas about per-key validation --

theorem checkKey_none (p : Passport) (k : List Char) (h : p.get k = none) :
    p.checkKey k = [PassportInvalid.MissingField k] := by
  unfold Passport.checkKey
  rw [h]

theorem checkKey_num (p : Passport) (k : List Char) (n : Nat)
    (h : p.get k = some (PassportField.Num n)) :
    p.checkKey k =
      if k = chars "byr" ∧ ¬(1920 ≤ n ∧ n ≤ 2002) then
        [PassportInvalid.OutOfRange k (natRepr n)]
      else if k = chars "iyr" ∧ ¬(2010 ≤ n ∧ n ≤ 2020) then
        [PassportInvalid.OutOfRange k (natRepr n)]
      else if k = chars "eyr" ∧ ¬(2020 ≤ n ∧ n ≤ 2030) then
        [PassportInvalid.OutOfRange k (natRepr n)]
      else [] := by
  unfold Passport.checkKey
  rw [h]

theorem checkKey_str (p : Passport) (k s : List Char)
    (h : p.get k = some (PassportField.Str s)) :
    p.checkKey k =
      if k = chars "hgt" then hgtCheck s
      else if k = chars "hcl" ∧ ¬hclMatch s then [PassportInvalid.InvalidFormat k s]
      else if k = chars "ecl" ∧ ¬(s ∈ ECL_VALS) then [PassportInvalid.InvalidFormat k s]
      else if k = chars "pid" ∧ ¬pidMatch s then [PassportInvalid.InvalidFormat k s]
      else [] := by
  unfold Passport.checkKey
  rw [h]

theorem vKey_hgtCheck (val : List Char) :
    ∀ v ∈ hgtCheck val, vKey v = chars "hgt" := by
  intro v hv
  unfold hgtCheck at hv
  rcases hcap : hgtCaptures val with _ | ⟨m, u⟩ <;> rw [hcap] at hv
  · simp at hv
    simp [hv, vKey]
  · simp only [List.mem_append] at hv
    rcases hv with hv | hv
    · split at hv <;> simp at hv <;> simp [hv, vKey]
    · rcases hp : parseU32 m with _ | n <;> rw [hp] at hv
      · simp at hv
        simp [hv, vKey]
      · split at hv <;> simp at hv <;> simp [hv, vKey]

theorem vKey_checkKey (p : Passport) (k : List Char) :
    ∀ v ∈ p.checkKey k, vKey v = k := by
  intro v hv
  rcases hg : p.get k with _ | f
  · rw [checkKey_none p k hg] at hv
    simp at hv
    simp [hv, vKey]
  · rcases f with n | s
    · rw [checkKey_num p k n hg] at hv
      split at hv <;> [skip; split at hv] <;> [skip; skip; split at hv] <;>
        simp at hv <;> simp [hv, vKey]
    · rw [checkKey_str p k s hg] at hv
      by_cases hk : k = chars "hgt"
      · rw [if_pos hk] at hv
        rw [vKey_hgtCheck s v hv, hk]
      · rw [if_neg hk] at hv
        split at hv <;> [skip; split at hv] <;> [skip; skip; split at hv] <;>
          simp at hv <;> simp [hv, vKey]

theorem filter_checkKey_self (p : Passport) (k : List Char) :
    (p.checkKey k).filter (fun v => vKey v == k) = p.checkKey k := by
  apply List.filter_eq_self.mpr
  intro v hv
  simp [vKey_checkKey p k v hv]

theorem filter_checkKey_other (p : Passport) (k k' : List Char) (h : ¬(k' = k)) :
    (p.checkKey k').filter (fun v => vKey v == k) = [] := by
  rw [List.filter_eq_nil_iff]
  intro v hv
  rw [vKey_checkKey p k' v hv]
  simp [h]

theorem flatMap_filter_key (p : Passport) (k : List Char) (ks : List (List Char))
    (hmem : k ∈ ks) (hnd : ks.Nodup) :
    (ks.flatMap p.checkKey).filter (fun v => vKey v == k) = p.checkKey k := by
  induction ks with
  | nil => simp at hmem
  | cons a ks ih =>
    rw [List.flatMap_cons, List.filter_append]
    rcases List.mem_cons.mp hmem with rfl | hmem'
    · rw [filter_checkKey_self]
      have hnot : k ∉ ks := (List.nodup_cons.mp hnd).1
      have hnil : (ks.flatMap p.checkKey).filter (fun v => vKey v == k) = [] := by
        rw [List.filter_eq_nil_iff]
        intro v hv
        obtain ⟨b, hb, hvb⟩ := List.mem_flatMap.mp hv
        rw [vKey_checkKey p b v hvb]
        simp only [beq_iff_eq]
        intro hbk
        exact hnot (hbk ▸ hb)
      rw [hnil, List.append_nil]
    · have hka : ¬(a = k) := by
        intro h
        exact (List.nodup_cons.mp hnd).1 (h ▸ hmem')
      rw [filter_checkKey_other p k a hka, ih hmem' (List.nodup_cons.mp hnd).2,
        List.nil_append]

theorem validateList_filter (p : Passport) (k : List Char)
    (hk : k ∈ PASSPORT_REQ_KEYS) :
    p.validateList.filter (fun v => vKey v == k) = p.checkKey k :=
  flatMap_filter_key p k PASSPORT_REQ_KEYS hk (by decide)

-- -- C3 --

/-- C3: a record whose `hgt` field is the text `"190"` gets from full
validation exactly one `hgt` violation, `InvalidFormat("hgt","190")`, and
no `OutOfRange` violation for `hgt` (the regex `^(\d+)(\w+)$` does match
`"190"`, capturing `"19"` and unit `"0"`; the unknown unit adds the single
`InvalidFormat` and no range check fires). -/
theorem c3_hgt_190 (p : Passport)
    (h : p.get (chars "hgt") = some (PassportField.Str (chars "190"))) :
    ∃ l, p.validate = Except.error l ∧
      l.filter (fun v => vKey v == chars "hgt") =
        [PassportInvalid.InvalidFormat (chars "hgt") (chars "190")] := by
  have hck : p.checkKey (chars "hgt") =
      [PassportInvalid.InvalidFormat (chars "hgt") (chars "190")] := by
    rw [checkKey_str p (chars "hgt") (chars "190") h]
    decide
  have hfilt := validateList_filter p (chars "hgt") (by decide)
  rw [hck] at hfilt
  have hne : ¬(p.validateList = []) := by
    intro h0
    rw [h0] at hfilt
    simp at hfilt
  refine ⟨p.validateList, ?_, hfilt⟩
  unfold Passport.validate
  rw [if_neg hne]

/-- C3 witness: the statement evaluated on the one-field record
`hgt ↦ "190"`. -/
theorem c3_witness :
    ∃ l, Passport.validate ⟨[(chars "hgt", PassportField.Str (chars "190"))]⟩ =
        Except.error l ∧
      l.filter (fun v => vKey v == chars "hgt") =
        [PassportInvalid.InvalidFormat (chars "hgt") (chars "190")] :=
  c3_hgt_190 ⟨[(chars "hgt", PassportField.Str (chars "190"))]⟩ (by decide)


-- -- C4 --

theorem hgtCheck_some (val m u : List Char) (h : hgtCaptures val = some (m, u)) :
    hgtCheck val =
      (if u ≠ chars "cm" ∧ u ≠ chars "in" then
        [PassportInvalid.InvalidFormat (chars "hgt") val]
      else []) ++
      (match parseU32 m with
       | some hv =>
         if (u = chars "cm" ∧ ¬(150 ≤ hv ∧ hv ≤ 193)) ∨
            (u = chars "in" ∧ ¬(59 ≤ hv ∧ hv ≤ 76)) then
           [PassportInvalid.OutOfRange (chars "hgt") val]
         else []
       | none => [PassportInvalid.InvalidFormat (chars "hgt") val]) := by
  unfold hgtCheck
  rw [h]

/-- C4 counterexample: `hgt:4294967296xy` matches the digits-then-suffix
shape with the unknown unit `"xy"`, yet full validation adds two
violations for `hgt`, not exactly one: the digit prefix overflows `u32`,
so the independent parse check pushes a second `InvalidFormat`. -/
theorem c4_counterexample :
    hgtCaptures (chars "4294967296xy") = some (chars "4294967296", chars "xy") ∧
    ¬(chars "xy" = chars "cm") ∧ ¬(chars "xy" = chars "in") ∧
    (Passport.validateList
        ⟨[(chars "hgt", PassportField.Str (chars "4294967296xy"))]⟩).filter
        (fun v => vKey v == chars "hgt") =
      [PassportInvalid.InvalidFormat (chars "hgt") (chars "4294967296xy"),
       PassportInvalid.InvalidFormat (chars "hgt") (chars "4294967296xy")] :=
  ⟨by decide, by decide, by decide, by decide⟩

/-- C4, corrected: for a record whose `hgt` value matches the
digits-then-suffix shape with a unit that is neither `cm` nor `in`, full
validation adds exactly one violation `InvalidFormat("hgt", value)`
provided the digit prefix parses as a `u32` (an overflowing prefix adds a
second `InvalidFormat` instead), and it never adds an `OutOfRange`
violation for `hgt`. -/
theorem c4_unknown_unit (p : Passport) (val m u : List Char)
    (hget : p.get (chars "hgt") = some (PassportField.Str val))
    (hcap : hgtCaptures val = some (m, u))
    (hcm : ¬(u = chars "cm")) (hin : ¬(u = chars "in")) :
    (∀ n, parseU32 m = some n →
      p.validateList.filter (fun v => vKey v == chars "hgt") =
        [PassportInvalid.InvalidFormat (chars "hgt") val]) ∧
    (∀ w, PassportInvalid.OutOfRange (chars "hgt") w ∉ p.validateList) := by
  have hck : p.checkKey (chars "hgt") = hgtCheck val := by
    rw [checkKey_str p (chars "hgt") val hget, if_pos rfl]
  have hfilt := validateList_filter p (chars "hgt") (by decide)
  rw [hck, hgtCheck_some val m u hcap] at hfilt
  have hrange : ∀ n : Nat,
      ¬((u = chars "cm" ∧ ¬(150 ≤ n ∧ n ≤ 193)) ∨
        (u = chars "in" ∧ ¬(59 ≤ n ∧ n ≤ 76))) := by
    rintro n (⟨h1, _⟩ | ⟨h1, _⟩)
    · exact hcm h1
    · exact hin h1
  constructor
  · intro n hn
    rw [hfilt, hn, if_pos ⟨hcm, hin⟩]
    simp [hrange n]
    exact ⟨fun h => absurd h hcm, fun h => absurd h hin⟩
  · intro w hw
    have hmem : PassportInvalid.OutOfRange (chars "hgt") w ∈
        p.validateList.filter (fun v => vKey v == chars "hgt") :=
      List.mem_filter.mpr ⟨hw, by simp [vKey]⟩
    rw [hfilt, if_pos ⟨hcm, hin⟩] at hmem
    rcases hp : parseU32 m with _ | n <;> rw [hp] at hmem
    · simp at hmem
    · simp at hmem
      rcases hmem with ⟨⟨h1, _⟩ | ⟨h1, _⟩, _⟩
      · exact hcm h1
      · exact hin h1

/-- C4 witness: the corrected statement evaluated on the one-field record
`hgt ↦ "190xy"`, whose digit prefix `190` parses as a `u32`. -/
theorem c4_witness :
    (∀ n, parseU32 (chars "190") = some n →
      (Passport.validateList
          ⟨[(chars "hgt", PassportField.Str (chars "190xy"))]⟩).filter
          (fun v => vKey v == chars "hgt") =
        [PassportInvalid.InvalidFormat (chars "hgt") (chars "190xy")]) ∧
    (∀ w, PassportInvalid.OutOfRange (chars "hgt") w ∉
      Passport.validateList ⟨[(chars "hgt", PassportField.Str (chars "190xy"))]⟩) :=
  c4_unknown_unit ⟨[(chars "hgt", PassportField.Str (chars "190xy"))]⟩
    (chars "190xy") (chars "190") (chars "xy") (by decide) (by decide) (by decide)
    (by decide)

-- -- C5 --

theorem flatMap_nil_forall {α β : Type} (ks : List α) (f : α → List β)
    (h : ks.flatMap f = []) : ∀ k ∈ ks, f k = [] := by
  induction ks with
  | nil => simp
  | cons a ks ih =>
    rw [List.flatMap_cons, List.append_eq_nil] at h
    intro k hk
    rcases List.mem_cons.mp hk with rfl | hk'
    · exact h.1
    · exact ih h.2 k hk'

theorem forall_nil_flatMap {α β : Type} (ks : List α) (f : α → List β)
    (h : ∀ k ∈ ks, f k = []) : ks.flatMap f = [] := by
  induction ks with
  | nil => simp
  | cons a ks ih =>
    rw [List.flatMap_cons, h a (by simp), List.nil_append]
    exact ih (fun k hk => h k (by simp [hk]))

/-- C5: whenever full validation accepts a record, simplified validation
accepts it as well - emptiness of the full violation list forces every
required key to be present, which is all the simplified mode checks. -/
theorem c5_full_implies_simplified (p : Passport) (h : p.validate = Except.ok ()) :
    p.validate_simplified = Except.ok () := by
  have hnil : p.validateList = [] := by
    by_cases h0 : p.validateList = []
    · exact h0
    · unfold Passport.validate at h
      rw [if_neg h0] at h
      exact absurd h (by simp)
  have hkeys : ∀ k ∈ PASSPORT_REQ_KEYS, p.checkKey k = [] :=
    flatMap_nil_forall PASSPORT_REQ_KEYS p.checkKey hnil
  unfold Passport.validate_simplified
  rw [if_pos]
  apply forall_nil_flatMap
  intro k hk
  rcases hg : p.get k with _ | f
  · have := hkeys k hk
    rw [checkKey_none p k hg] at this
    exact absurd this (by simp)
  · rfl

/-- C5 witness: the statement evaluated on the spec's fully valid example
record. -/
theorem c5_witness :
    Passport.validate_simplified
      ⟨[(chars "ecl", PassportField.Str (chars "gry")),
        (chars "pid", PassportField.Str (chars "860033327")),
        (chars "eyr", PassportField.Num 2020),
        (chars "hcl", PassportField.Str (chars "#fffffd")),
        (chars "byr", PassportField.Num 1937),
        (chars "iyr", PassportField.Num 2017),
        (chars "cid", PassportField.Str (chars "147")),
        (chars "hgt", PassportField.Str (chars "183cm"))]⟩ = Except.ok () :=
  c5_full_implies_simplified _ (by decide)

-- -- C9 --

theorem readLoop_all_blank (ls : List (List Char)) :
    ∀ acc p, (∀ l ∈ ls, trimStr l = []) →
      readLoop ReadState.Empty acc p ls = some (.ok acc) := by
  induction ls with
  | nil =>
    intro acc p _
    simp [readLoop]
  | cons l ls ih =>
    intro acc p h
    have hl : trimStr l = [] := h l (by simp)
    rw [readLoop]
    simp only [hl, if_pos]
    have hacc : (if ReadState.Empty = ReadState.Line then acc ++ [p] else acc) = acc := by
      simp
    rw [hacc]
    exact ih acc p (fun x hx => h x (by simp [hx]))

/-- C9: on empty input - zero lines, or lines that are all blank after
trimming - `read_from_file` returns `Ok` with an empty record sequence,
not an error. -/
theorem c9_empty_input (lines : List (List Char))
    (h : ∀ l ∈ lines, trimStr l = []) :
    read_from_file lines = some (.ok []) :=
  readLoop_all_blank lines [] Passport.new h

/-- C9 witness: the statement evaluated on a two-line all-blank input. -/
theorem c9_witness : read_from_file [chars "", chars "   "] = some (.ok []) :=
  c9_empty_input [chars "", chars "   "] (by decide)

-- -- C10 --

theorem splitColon_two_of_colon (cs : List Char) (h : ':' ∈ cs) :
    2 ≤ (splitColon cs).length := by
  induction cs with
  | nil => simp at h
  | cons c cs ih =>
    rw [splitColon]
    by_cases hc : c = ':'
    · rw [if_pos hc]
      have h1 : splitColon cs ≠ [] := splitColon_ne_nil cs
      have h2 : 1 ≤ (splitColon cs).length := List.length_pos.mpr h1
      simp only [List.length_cons]
      omega
    · rw [if_neg hc]
      have hmem : ':' ∈ cs := by
        rcases List.mem_cons.mp h with h1 | h1
        · exact absurd h1.symm hc
        · exact h1
      have h2 := ih hmem
      cases hsp : splitColon cs with
      | nil => exact absurd hsp (splitColon_ne_nil cs)
      | cons t ts =>
        rw [hsp] at h2
        simpa using h2

theorem processToken_ne_none (p : Passport) (tok : List Char) (h : ':' ∈ tok) :
    ¬(processToken p tok = none) := by
  obtain ⟨v1, hv1⟩ : ∃ v1, (splitColon tok).get? 1 = some v1 := by
    cases hg : (splitColon tok).get? 1 with
    | none =>
      rw [List.get?_eq_none] at hg
      have := splitColon_two_of_colon tok h
      omega
    | some v => exact ⟨v, rfl⟩
  simp only [processToken, hv1]
  split
  · cases parseU32 v1 <;> simp
  · split
    · simp
    · simp

theorem processTokens_ne_none (toks : List (List Char)) (h : ∀ t ∈ toks, ':' ∈ t) :
    ∀ p, ¬(processTokens p toks = none) := by
  induction toks with
  | nil =>
    intro p
    simp [processTokens]
  | cons t ts ih =>
    intro p
    rw [processTokens]
    cases hp : processToken p t with
    | none => exact absurd hp (processToken_ne_none p t (h t (by simp)))
    | some r =>
      cases r with
      | error e => simp
      | ok p' => exact ih (fun x hx => h x (by simp [hx])) p'

/-- C10: the token loop of `Passport::process` indexes `vec[1]`
unconditionally inside the catalog-key match arms, so `process` cannot
panic when every whitespace-separated token of the line holds a colon; but
on a line holding a colon-less token whose whole text is a catalog key -
the line `"byr"` - the `vec[1]` access is out of bounds and `process`
panics (modelled as `none`) instead of returning a parse error. -/
theorem c10_panic_on_colonless_key :
    (∀ (p : Passport) (line : List Char),
      (∀ tok ∈ splitWsRuns line, ':' ∈ tok) → ¬(p.process line = none)) ∧
    (∀ p : Passport, p.process (chars "byr") = none) := by
  constructor
  · intro p line h
    exact processTokens_ne_none (splitWsRuns line) h p
  · intro p
    rfl

/-- C10 witness: the no-panic half evaluated on the line `"cid:1"`, every
token of which holds a colon. -/
theorem c10_witness : ¬(Passport.new.process (chars "cid:1") = none) :=
  c10_panic_on_colonless_key.1 Passport.new (chars "cid:1") (by decide)

-- -- equation lemmas for the read loop --

theorem readLoop_nil (state : ReadState) (acc : List Passport) (p : Passport) :
    readLoop state acc p [] =
      some (.ok (if state = ReadState.Line then acc ++ [p] else acc)) := rfl

theorem readLoop_cons_blank (state : ReadState) (acc : List Passport) (p : Passport)
    (l : List Char) (ls : List (List Char)) (h : trimStr l = []) :
    readLoop state acc p (l :: ls) =
      readLoop ReadState.Empty (if state = ReadState.Line then acc ++ [p] else acc) p ls := by
  rw [readLoop]
  simp [h]

theorem readLoop_cons_line (state : ReadState) (acc : List Passport) (p : Passport)
    (l : List Char) (ls : List (List Char)) (h : ¬(trimStr l = [])) :
    readLoop state acc p (l :: ls) =
      match (if state = ReadState.Empty then Passport.new else p).process (trimStr l) with
      | none => none
      | some (.error _) => some (.error "passport process error")
      | some (.ok p') => readLoop ReadState.Line acc p' ls := by
  rw [readLoop]
  simp [h]

theorem readLoop_cons_ok (state : ReadState) (acc : List Passport) (p : Passport)
    (l : List Char) (ls : List (List Char)) (p' : Passport) (h : ¬(trimStr l = []))
    (hpr : (if state = ReadState.Empty then Passport.new else p).process (trimStr l) =
      some (.ok p')) :
    readLoop state acc p (l :: ls) = readLoop ReadState.Line acc p' ls := by
  rw [readLoop_cons_line state acc p l ls h, hpr]

theorem readLoop_cons_err (state : ReadState) (acc : List Passport) (p : Passport)
    (l : List Char) (ls : List (List Char)) (e : PassportProcessError)
    (h : ¬(trimStr l = []))
    (hpr : (if state = ReadState.Empty then Passport.new else p).process (trimStr l) =
      some (.error e)) :
    readLoop state acc p (l :: ls) = some (.error "passport process error") := by
  rw [readLoop_cons_line state acc p l ls h, hpr]

theorem readLoop_cons_panic (state : ReadState) (acc : List Passport) (p : Passport)
    (l : List Char) (ls : List (List Char)) (h : ¬(trimStr l = []))
    (hpr : (if state = ReadState.Empty then Passport.new else p).process (trimStr l) = none) :
    readLoop state acc p (l :: ls) = none := by
  rw [readLoop_cons_line state acc p l ls h, hpr]

-- -- C8 --

theorem insert_get (p : Passport) (k : List Char) (v : PassportField) (k' : List Char) :
    (p.insert k v).get k' = if k = k' then some v else p.get k' := by
  by_cases h : k = k'
  · subst h
    simp [Passport.insert, Passport.get]
  · simp [Passport.insert, Passport.get, h]

theorem num_keys_not_str : ∀ k ∈ CATALOG_NUM_KEYS, k ∉ CATALOG_STR_KEYS := by decide

theorem str_keys_not_num : ∀ k ∈ CATALOG_STR_KEYS, k ∉ CATALOG_NUM_KEYS := by decide

theorem passportInv_new : PassportInv Passport.new := by
  intro k v h
  simp [Passport.new, Passport.get] at h

theorem insert_inv_num (p : Passport) (key : List Char) (n : Nat)
    (hp : PassportInv p) (hk : key ∈ CATALOG_NUM_KEYS) :
    PassportInv (p.insert key (PassportField.Num n)) := by
  intro k v hg
  rw [insert_get] at hg
  by_cases hkk : key = k
  · rw [if_pos hkk] at hg
    injection hg with hg
    subst hkk
    exact ⟨List.mem_append.mpr (Or.inl hk), fun _ => ⟨n, hg.symm⟩,
      fun hstr => absurd hstr (num_keys_not_str key hk)⟩
  · rw [if_neg hkk] at hg
    exact hp k v hg

theorem insert_inv_str (p : Passport) (key s : List Char)
    (hp : PassportInv p) (hk : key ∈ CATALOG_STR_KEYS) :
    PassportInv (p.insert key (PassportField.Str s)) := by
  intro k v hg
  rw [insert_get] at hg
  by_cases hkk : key = k
  · rw [if_pos hkk] at hg
    injection hg with hg
    subst hkk
    exact ⟨List.mem_append.mpr (Or.inr hk),
      fun hnum => absurd hnum (str_keys_not_num key hk), fun _ => ⟨s, hg.symm⟩⟩
  · rw [if_neg hkk] at hg
    exact hp k v hg

theorem processToken_inv (p : Passport) (tok : List Char) (q : Passport)
    (hp : PassportInv p) (h : processToken p tok = some (.ok q)) : PassportInv q := by
  simp only [processToken] at h
  split at h
  · rename_i hknum
    split at h
    · exact absurd h (by simp)
    · split at h
      · exact absurd h (by simp)
      · simp only [Option.some.injEq, Except.ok.injEq] at h
        rw [← h]
        exact insert_inv_num p _ _ hp hknum
  · split at h
    · rename_i hkstr
      split at h
      · exact absurd h (by simp)
      · simp only [Option.some.injEq, Except.ok.injEq] at h
        rw [← h]
        exact insert_inv_str p _ _ hp hkstr
    · exact absurd h (by simp)

theorem processTokens_inv (toks : List (List Char)) :
    ∀ p q, PassportInv p → processTokens p toks = some (.ok q) → PassportInv q := by
  induction toks with
  | nil =>
    intro p q hp h
    rw [processTokens] at h
    simp only [Option.some.injEq, Except.ok.injEq] at h
    rw [← h]
    exact hp
  | cons t ts ih =>
    intro p q hp h
    rw [processTokens] at h
    cases hpt : processToken p t with
    | none => rw [hpt] at h; exact absurd h (by simp)
    | some r =>
      rw [hpt] at h
      cases r with
      | error e => exact absurd h (by simp)
      | ok p' => exact ih p' q (processToken_inv p t p' hp hpt) h

theorem process_inv (p : Passport) (line : List Char) (q : Passport)
    (hp : PassportInv p) (h : p.process line = some (.ok q)) : PassportInv q :=
  processTokens_inv (splitWsRuns line) p q hp h

theorem readLoop_inv (ls : List (List Char)) :
    ∀ state acc p ps, (∀ r ∈ acc, PassportInv r) → PassportInv p →
      readLoop state acc p ls = some (.ok ps) → ∀ r ∈ ps, PassportInv r := by
  induction ls with
  | nil =>
    intro state acc p ps hacc hp h
    rw [readLoop_nil] at h
    simp only [Option.some.injEq, Except.ok.injEq] at h
    intro r hr
    rw [← h] at hr
    split at hr
    · rcases List.mem_append.mp hr with h1 | h1
      · exact hacc r h1
      · simp at h1
        rw [h1]
        exact hp
    · exact hacc r hr
  | cons l ls ih =>
    intro state acc p ps hacc hp h
    by_cases hbl : trimStr l = []
    · rw [readLoop_cons_blank state acc p l ls hbl] at h
      refine ih ReadState.Empty _ p ps ?_ hp h
      intro r hr
      split at hr
      · rcases List.mem_append.mp hr with h1 | h1
        · exact hacc r h1
        · simp at h1
          rw [h1]
          exact hp
      · exact hacc r hr
    · cases hpr : (if state = ReadState.Empty then Passport.new else p).process (trimStr l) with
      | none => rw [readLoop_cons_panic state acc p l ls hbl hpr] at h; exact absurd h (by simp)
      | some r0 =>
        cases r0 with
        | error e =>
          rw [readLoop_cons_err state acc p l ls e hbl hpr] at h
          exact absurd h (by simp)
        | ok p' =>
          rw [readLoop_cons_ok state acc p l ls p' hbl hpr] at h
          have hcur : PassportInv (if state = ReadState.Empty then Passport.new else p) := by
            split
            · exact passportInv_new
            · exact hp
          exact ih ReadState.Line acc p' ps hacc (process_inv _ _ _ hcur hpr) h

/-- C8: parsing preserves the catalog/type invariant - every key of a
record built by `Passport::process` is one of the 8 catalog keys, with
`byr`, `eyr`, `iyr` holding the `Num` variant and `ecl`, `hcl`, `hgt`,
`pid`, `cid` holding the `Str` variant - and every record produced by a
successful `read_from_file` satisfies it. -/
theorem c8_parse_invariant :
    (∀ (p : Passport) (line : List Char) (q : Passport),
      PassportInv p → p.process line = some (.ok q) → PassportInv q) ∧
    (∀ (lines : List (List Char)) (ps : List Passport),
      read_from_file lines = some (.ok ps) → ∀ r ∈ ps, PassportInv r) := by
  constructor
  · exact process_inv
  · intro lines ps h
    exact readLoop_inv lines ReadState.Empty [] Passport.new ps (by simp) passportInv_new h

/-- C8 witness: the invariant transported through `process` on the line
`"byr:1987"` starting from the fresh record. -/
theorem c8_witness :
    PassportInv (Passport.new.insert (chars "byr") (PassportField.Num 1987)) :=
  c8_parse_invariant.1 Passport.new (chars "byr:1987")
    (Passport.new.insert (chars "byr") (PassportField.Num 1987)) passportInv_new (by decide)

-- -- C7 --

theorem processToken_ok_key (p : Passport) (tok : List Char) (q : Passport)
    (h : processToken p tok = some (.ok q)) : keyOf tok ∈ CATALOG_KEYS := by
  unfold keyOf
  simp only [processToken] at h
  split at h
  · rename_i hknum
    exact List.mem_append.mpr (Or.inl hknum)
  · split at h
    · rename_i hkstr
      exact List.mem_append.mpr (Or.inr hkstr)
    · exact absurd h (by simp)

theorem processTokens_ok_keys (toks : List (List Char)) :
    ∀ p q, processTokens p toks = some (.ok q) → ∀ t ∈ toks, keyOf t ∈ CATALOG_KEYS := by
  induction toks with
  | nil => simp
  | cons t ts ih =>
    intro p q h x hx
    rw [processTokens] at h
    cases hpt : processToken p t with
    | none => rw [hpt] at h; exact absurd h (by simp)
    | some r =>
      rw [hpt] at h
      cases r with
      | error e => exact absurd h (by simp)
      | ok p' =>
        rcases List.mem_cons.mp hx with rfl | hx'
        · exact processToken_ok_key p x p' hpt
        · exact ih p' q h x hx'

theorem processToken_unknown (tok : List Char) (h : keyOf tok ∉ CATALOG_KEYS) :
    ∀ p, processToken p tok = some (.error (.UnknownKey (keyOf tok))) := by
  intro p
  have hnum : ¬((splitColon tok).headD [] ∈ CATALOG_NUM_KEYS) := fun hx =>
    h (List.mem_append.mpr (Or.inl hx))
  have hstr : ¬((splitColon tok).headD [] ∈ CATALOG_STR_KEYS) := fun hx =>
    h (List.mem_append.mpr (Or.inr hx))
  simp only [processToken, if_neg hnum, if_neg hstr]
  rfl

theorem processTokens_first_unknown (pre : List (List Char)) :
    ∀ (tok : List Char) (post : List (List Char)) (p : Passport),
      (∀ t ∈ pre, ∀ r : Passport, ∃ q, processToken r t = some (.ok q)) →
      keyOf tok ∉ CATALOG_KEYS →
      processTokens p (pre ++ tok :: post) =
        some (.error (.UnknownKey (keyOf tok))) := by
  induction pre with
  | nil =>
    intro tok post p _ hk
    rw [List.nil_append, processTokens, processToken_unknown tok hk p]
  | cons t pre ih =>
    intro tok post p hok hk
    obtain ⟨q, hq⟩ := hok t (by simp) p
    rw [List.cons_append, processTokens, hq]
    exact ih tok post q (fun x hx r => hok x (by simp [hx]) r) hk

theorem process_no_ok_of_unknown (p : Passport) (line : List Char)
    (h : ∃ tok ∈ splitWsRuns line, keyOf tok ∉ CATALOG_KEYS) :
    ∀ q, ¬(p.process line = some (.ok q)) := by
  intro q hq
  obtain ⟨tok, htok, hk⟩ := h
  exact hk (processTokens_ok_keys (splitWsRuns line) p q hq tok htok)

theorem readLoop_no_ok (ls : List (List Char)) :
    ∀ state acc p,
      (∃ l ∈ ls, ¬(trimStr l = []) ∧
        ∀ (r : Passport) q, ¬(r.process (trimStr l) = some (.ok q))) →
      ∀ ps, ¬(readLoop state acc p ls = some (.ok ps)) := by
  induction ls with
  | nil =>
    intro state acc p h
    obtain ⟨l, hl, _⟩ := h
    simp at hl
  | cons l ls ih =>
    intro state acc p h ps hok
    by_cases hbl : trimStr l = []
    · rw [readLoop_cons_blank state acc p l ls hbl] at hok
      obtain ⟨x, hx, hxb, hxf⟩ := h
      rcases List.mem_cons.mp hx with rfl | hx'
      · exact hxb hbl
      · exact ih ReadState.Empty _ p ⟨x, hx', hxb, hxf⟩ ps hok
    · cases hpr : (if state = ReadState.Empty then Passport.new else p).process (trimStr l) with
      | none =>
        rw [readLoop_cons_panic state acc p l ls hbl hpr] at hok
        exact absurd hok (by simp)
      | some r0 =>
        cases r0 with
        | error e =>
          rw [readLoop_cons_err state acc p l ls e hbl hpr] at hok
          exact absurd hok (by simp)
        | ok p' =>
          rw [readLoop_cons_ok state acc p l ls p' hbl hpr] at hok
          obtain ⟨x, hx, hxb, hxf⟩ := h
          rcases List.mem_cons.mp hx with rfl | hx'
          · exact hxf _ p' hpr
          · exact ih ReadState.Line acc p' ⟨x, hx', hxb, hxf⟩ ps hok

/-- C7 counterexample: the line `byr:x zzz:1` holds the token `zzz:1`
whose key `zzz` is outside the catalog, yet `Passport::process` returns
`Err(UnparsableU32("x"))` - the earlier token fails first - not
`Err(UnknownKey("zzz"))`. -/
theorem c7_counterexample :
    (chars "zzz:1") ∈ splitWsRuns (chars "byr:x zzz:1") ∧
    keyOf (chars "zzz:1") = chars "zzz" ∧
    chars "zzz" ∉ CATALOG_KEYS ∧
    Passport.process Passport.new (chars "byr:x zzz:1") =
      some (.error (.UnparsableU32 (chars "x"))) ∧
    ¬(PassportProcessError.UnparsableU32 (chars "x") =
      PassportProcessError.UnknownKey (chars "zzz")) :=
  ⟨by decide, by decide, by decide, by decide, by decide⟩

/-- C7, corrected: a token whose key is outside the 8-key catalog
prevents `Passport::process` from ever succeeding, and the error is
`UnknownKey(that key)` when every earlier token of the line processes
successfully (an earlier failing token reports its own error instead);
`read_from_file` then never returns a record sequence for such input. -/
theorem c7_unknown_key :
    (∀ (p : Passport) (line : List Char),
      (∃ tok ∈ splitWsRuns line, keyOf tok ∉ CATALOG_KEYS) →
      ∀ q, ¬(p.process line = some (.ok q))) ∧
    (∀ (p : Passport) (line : List Char) (pre : List (List Char)) (tok : List Char)
        (post : List (List Char)),
      splitWsRuns line = pre ++ tok :: post →
      (∀ t ∈ pre, ∀ r : Passport, ∃ q, processToken r t = some (.ok q)) →
      keyOf tok ∉ CATALOG_KEYS →
      p.process line = some (.error (.UnknownKey (keyOf tok)))) ∧
    (∀ lines : List (List Char),
      (∃ l ∈ lines, ¬(trimStr l = []) ∧
        ∃ tok ∈ splitWsRuns (trimStr l), keyOf tok ∉ CATALOG_KEYS) →
      ∀ ps, ¬(read_from_file lines = some (.ok ps))) := by
  refine ⟨process_no_ok_of_unknown, ?_, ?_⟩
  · intro p line pre tok post hsplit hok hk
    unfold Passport.process
    rw [hsplit]
    exact processTokens_first_unknown pre tok post p hok hk
  · intro lines h ps
    apply readLoop_no_ok lines ReadState.Empty [] Passport.new
    obtain ⟨l, hl, hlb, htok⟩ := h
    exact ⟨l, hl, hlb, fun r q => process_no_ok_of_unknown r (trimStr l) htok q⟩

/-- C7 witness: the corrected statement evaluated on the line
`cid:1 zzz:2`, whose first token processes fine, so the reported error is
`UnknownKey("zzz")`. -/
theorem c7_witness :
    Passport.process Passport.new (chars "cid:1 zzz:2") =
      some (.error (.UnknownKey (chars "zzz"))) :=
  c7_unknown_key.2.1 Passport.new (chars "cid:1 zzz:2") [chars "cid:1"]
    (chars "zzz:2") [] (by decide)
    (by
      intro t ht r
      simp only [List.mem_singleton] at ht
      rw [ht]
      exact ⟨r.insert (chars "cid") (PassportField.Str (chars "1")), rfl⟩)
    (by decide)

-- -- C6 --

theorem countP_or_disjoint {α : Type} (l : List α) (g h : α → Bool)
    (hd : ∀ a ∈ l, ¬(g a = true ∧ h a = true)) :
    l.countP (fun a => g a || h a) = l.countP g + l.countP h := by
  induction l with
  | nil => simp
  | cons a l ih =>
    rw [List.countP_cons, List.countP_cons, List.countP_cons,
      ih (fun x hx => hd x (by simp [hx]))]
    by_cases hg : g a = true
    · have hh : ¬(h a = true) := fun hh => hd a (by simp) ⟨hg, hh⟩
      simp only [hg, Bool.true_or, if_pos]
      simp [hh]
      omega
    · by_cases hh : h a = true
      · simp [hg, hh]
        omega
      · simp [hg, hh]

theorem flatMap_eq_map_filter {α β : Type} (ks : List α) (f : α → List β)
    (sel : α → Bool) (g : α → β)
    (h : ∀ k ∈ ks, f k = if sel k then [g k] else []) :
    ks.flatMap f = (ks.filter sel).map g := by
  induction ks with
  | nil => simp
  | cons a ks ih =>
    rw [List.flatMap_cons, h a (by simp), ih (fun x hx => h x (by simp [hx])),
      List.filter_cons]
    by_cases hs : sel a = true
    · simp [hs]
    · simp [hs]

theorem countP_req_one (l : List (List Char)) (a : List Char)
    (hnd : l.Nodup) (ha : a ∈ l) : l.countP (fun x => x == a) = 1 := by
  induction l with
  | nil => simp at ha
  | cons b l ih =>
    rw [List.countP_cons]
    rcases List.mem_cons.mp ha with rfl | ha'
    · have hzero : l.countP (fun x => x == a) = 0 := by
        rw [List.countP_eq_zero]
        intro x hx
        simp only [beq_iff_eq]
        intro hxa
        exact (List.nodup_cons.mp hnd).1 (hxa ▸ hx)
      simp [hzero]
    · have hba : ¬((b == a) = true) := by
        simp only [beq_iff_eq]
        intro hba
        exact (List.nodup_cons.mp hnd).1 (hba ▸ ha')
      rw [ih (List.nodup_cons.mp hnd).2 ha']
      simp [hba]

/-- C6: full validation collects all applicable violations - a record
missing exactly 3 required keys, with one further key producing a single
`OutOfRange` violation and every other required key checking clean, gets
`Err` with exactly 4 violations, listed in the catalog key order
`byr, eyr, iyr, ecl, hcl, hgt, pid`. -/
theorem c6_collect_all (p : Passport) (k₀ v : List Char)
    (h3 : (PASSPORT_REQ_KEYS.filter (fun k => p.get k == none)).length = 3)
    (hk₀ : k₀ ∈ PASSPORT_REQ_KEYS)
    (hoor : p.checkKey k₀ = [PassportInvalid.OutOfRange k₀ v])
    (hok : ∀ k ∈ PASSPORT_REQ_KEYS, ¬(p.get k = none) → ¬(k = k₀) →
      p.checkKey k = []) :
    ∃ l, p.validate = Except.error l ∧ l.length = 4 ∧
      l = (PASSPORT_REQ_KEYS.filter (fun k => p.get k == none || k == k₀)).map
            (fun k => if p.get k = none then PassportInvalid.MissingField k
                      else PassportInvalid.OutOfRange k₀ v) := by
  have hk0get : ¬(p.get k₀ = none) := by
    intro h0
    rw [checkKey_none p k₀ h0] at hoor
    exact absurd hoor (by simp)
  have hsel : ∀ k ∈ PASSPORT_REQ_KEYS, p.checkKey k =
      if (p.get k == none || k == k₀) then
        [if p.get k = none then PassportInvalid.MissingField k
         else PassportInvalid.OutOfRange k₀ v]
      else [] := by
    intro k hk
    by_cases hg : p.get k = none
    · rw [if_pos (by simp [hg]), if_pos hg]
      exact checkKey_none p k hg
    · by_cases hkk : k = k₀
      · subst hkk
        rw [if_pos (by simp), if_neg hg]
        exact hoor
      · rw [if_neg (by simp [hg, hkk])]
        exact hok k hk hg hkk
  have hflat : p.validateList =
      (PASSPORT_REQ_KEYS.filter (fun k => p.get k == none || k == k₀)).map
        (fun k => if p.get k = none then PassportInvalid.MissingField k
                  else PassportInvalid.OutOfRange k₀ v) :=
    flatMap_eq_map_filter PASSPORT_REQ_KEYS p.checkKey _ _ hsel
  have hcnt :
      (PASSPORT_REQ_KEYS.filter (fun k => p.get k == none || k == k₀)).length = 4 := by
    rw [← List.countP_eq_length_filter]
    rw [countP_or_disjoint PASSPORT_REQ_KEYS (fun k => p.get k == none)
      (fun k => k == k₀)
      (by
        intro a _ hc
        rw [beq_iff_eq] at hc
        have ha : a = k₀ := by
          have := hc.2
          simpa using this
        rw [ha] at hc
        exact hk0get (by simpa using hc.1))]
    have hone : PASSPORT_REQ_KEYS.countP (fun k => k == k₀) = 1 :=
      countP_req_one PASSPORT_REQ_KEYS k₀ (by decide) hk₀
    rw [List.countP_eq_length_filter, h3, hone]
  have hlen4 : p.validateList.length = 4 := by
    rw [hflat, List.length_map, hcnt]
  have hne : ¬(p.validateList = []) := by
    intro h0
    rw [h0] at hlen4
    exact absurd hlen4 (by simp)
  refine ⟨p.validateList, ?_, hlen4, hflat⟩
  unfold Passport.validate
  rw [if_neg hne]

/-- C6 witness: the statement evaluated on a record missing `eyr`, `iyr`
and `ecl`, with `byr = 1900` out of range and `hcl`, `hgt`, `pid` valid. -/
theorem c6_witness :
    ∃ l, Passport.validate
        ⟨[(chars "byr", PassportField.Num 1900),
          (chars "hcl", PassportField.Str (chars "#abcdef")),
          (chars "hgt", PassportField.Str (chars "183cm")),
          (chars "pid", PassportField.Str (chars "000000000"))]⟩ = Except.error l ∧
      l.length = 4 ∧
      l = (PASSPORT_REQ_KEYS.filter (fun k =>
            Passport.get
              ⟨[(chars "byr", PassportField.Num 1900),
                (chars "hcl", PassportField.Str (chars "#abcdef")),
                (chars "hgt", PassportField.Str (chars "183cm")),
                (chars "pid", PassportField.Str (chars "000000000"))]⟩ k == none ||
            k == chars "byr")).map
          (fun k => if Passport.get
              ⟨[(chars "byr", PassportField.Num 1900),
                (chars "hcl", PassportField.Str (chars "#abcdef")),
                (chars "hgt", PassportField.Str (chars "183cm")),
                (chars "pid", PassportField.Str (chars "000000000"))]⟩ k = none
            then PassportInvalid.MissingField k
            else PassportInvalid.OutOfRange (chars "byr") (chars "1900")) :=
  c6_collect_all
    ⟨[(chars "byr", PassportField.Num 1900),
      (chars "hcl", PassportField.Str (chars "#abcdef")),
      (chars "hgt", PassportField.Str (chars "183cm")),
      (chars "pid", PassportField.Str (chars "000000000"))]⟩
    (chars "byr") (chars "1900") (by decide) (by decide) (by decide) (by decide)


-- -- C2 --

theorem runsOf_cons_blankline (l : List Char) (ls : List (List Char))
    (h : blankLine l = true) : runsOf (l :: ls) = runsOf ls := by
  rw [runsOf.eq_def]
  simp [h]

theorem runsOf_single (l : List Char) (h : ¬(blankLine l = true)) :
    runsOf [l] = [[l]] := by
  rw [runsOf.eq_def]
  simp [h]

theorem runsOf_cons_cons_blank (l l2 : List Char) (ls : List (List Char))
    (h : ¬(blankLine l = true)) (h2 : blankLine l2 = true) :
    runsOf (l :: l2 :: ls) = [l] :: runsOf (l2 :: ls) := by
  rw [runsOf.eq_def]
  simp [h, h2]

theorem runsOf_cons_cons_line (l l2 : List Char) (ls : List (List Char))
    (h : ¬(blankLine l = true)) (h2 : ¬(blankLine l2 = true)) :
    runsOf (l :: l2 :: ls) =
      match runsOf (l2 :: ls) with
      | [] => [[l]]
      | t :: ts => (l :: t) :: ts := by
  rw [runsOf.eq_def]
  simp [h, h2]

theorem runsOf_cons_nonblank (ls : List (List Char)) :
    ∀ l : List Char, ¬(blankLine l = true) →
      runsOf (l :: ls) =
        (l :: ls.takeWhile (fun x => !blankLine x)) ::
          runsOf (ls.dropWhile (fun x => !blankLine x)) := by
  induction ls with
  | nil =>
    intro l h
    rw [runsOf_single l h]
    simp [runsOf]
  | cons l2 t ih =>
    intro l h
    by_cases hb2 : blankLine l2 = true
    · rw [runsOf_cons_cons_blank l l2 t h hb2, List.takeWhile_cons, List.dropWhile_cons]
      simp [hb2]
    · rw [runsOf_cons_cons_line l l2 t h hb2, ih l2 hb2, List.takeWhile_cons,
        List.dropWhile_cons]
      simp [hb2]

theorem buildFrom_cons_ok (p : Passport) (l : List Char) (ls : List (List Char))
    (q : Passport) (h : p.process (trimStr l) = some (.ok q)) :
    buildFrom p (l :: ls) = buildFrom q ls := by
  rw [buildFrom, h]

theorem readLoop_runs (ls : List (List Char)) :
    ∀ (state : ReadState) (acc : List Passport) (p : Passport) (ps : List Passport),
      readLoop state acc p ls = some (.ok ps) →
      ∃ qs, ps = acc ++ qs ∧
        ((state = ReadState.Empty →
           List.Forall₂ (fun run r => buildRun run = some (Except.ok r)) (runsOf ls) qs) ∧
         (state = ReadState.Line →
           ∃ r₀ rs, qs = r₀ :: rs ∧
             buildFrom p (ls.takeWhile (fun x => !blankLine x)) = some (Except.ok r₀) ∧
             List.Forall₂ (fun run r => buildRun run = some (Except.ok r))
               (runsOf (ls.dropWhile (fun x => !blankLine x))) rs)) := by
  induction ls with
  | nil =>
    intro state acc p ps h
    rw [readLoop_nil] at h
    cases state with
    | Empty =>
      simp at h
      refine ⟨[], by rw [← h, List.append_nil], fun _ => ?_, fun hc => absurd hc (by decide)⟩
      simp [runsOf]
    | Line =>
      simp at h
      refine ⟨[p], by rw [← h], fun hc => absurd hc (by decide), fun _ => ?_⟩
      refine ⟨p, [], rfl, rfl, ?_⟩
      simp [runsOf]
  | cons l ls ih =>
    intro state acc p ps h
    by_cases hbl : trimStr l = []
    · have hblank : blankLine l = true := by simp [blankLine, hbl]
      rw [readLoop_cons_blank state acc p l ls hbl] at h
      obtain ⟨qs, hps, hE, _⟩ := ih ReadState.Empty _ p ps h
      have hqs := hE rfl
      cases state with
      | Empty =>
        simp at hps
        refine ⟨qs, hps, fun _ => ?_, fun hc => absurd hc (by decide)⟩
        rw [runsOf_cons_blankline l ls hblank]
        exact hqs
      | Line =>
        simp at hps
        refine ⟨p :: qs, by rw [hps],
          fun hc => absurd hc (by decide), fun _ => ?_⟩
        refine ⟨p, qs, rfl, ?_, ?_⟩
        · rw [List.takeWhile_cons, if_neg (by simp [hblank])]
          rfl
        · rw [List.dropWhile_cons, if_neg (by simp [hblank]),
            runsOf_cons_blankline l ls hblank]
          exact hqs
    · have hnb : ¬(blankLine l = true) := by simp [blankLine, hbl]
      cases hpr : (if state = ReadState.Empty then Passport.new else p).process (trimStr l) with
      | none =>
        rw [readLoop_cons_panic state acc p l ls hbl hpr] at h
        exact absurd h (by simp)
      | some r0 =>
        cases r0 with
        | error e =>
          rw [readLoop_cons_err state acc p l ls e hbl hpr] at h
          exact absurd h (by simp)
        | ok p' =>
          rw [readLoop_cons_ok state acc p l ls p' hbl hpr] at h
          obtain ⟨qs, hps, _, hL⟩ := ih ReadState.Line acc p' ps h
          obtain ⟨r₀, rs, hqs, hbf, hrs⟩ := hL rfl
          cases state with
          | Empty =>
            have hpr' : Passport.new.process (trimStr l) = some (.ok p') := by
              simpa using hpr
            refine ⟨qs, hps, fun _ => ?_, fun hc => absurd hc (by decide)⟩
            rw [runsOf_cons_nonblank ls l hnb, hqs]
            refine List.Forall₂.cons ?_ hrs
            unfold buildRun
            rw [buildFrom_cons_ok Passport.new l _ p' hpr']
            exact hbf
          | Line =>
            have hpr' : p.process (trimStr l) = some (.ok p') := by
              simpa using hpr
            refine ⟨qs, hps, fun hc => absurd hc (by decide), fun _ => ?_⟩
            refine ⟨r₀, rs, hqs, ?_, ?_⟩
            · rw [List.takeWhile_cons, if_pos (by simp [Bool.not_eq_true] at hnb ⊢; exact hnb),
                buildFrom_cons_ok p l _ p' hpr']
              exact hbf
            · rw [List.dropWhile_cons, if_pos (by simp [Bool.not_eq_true] at hnb ⊢; exact hnb)]
              exact hrs

/-- C2: whenever `read_from_file` succeeds, it returns exactly one record
per maximal run of non-blank lines (blank = empty after trimming), in
input order - each returned record is the one built by folding `process`
over its run - so the record count equals the run count regardless of
leading, trailing or repeated blank lines. -/
theorem c2_one_record_per_run (lines : List (List Char)) (ps : List Passport)
    (h : read_from_file lines = some (Except.ok ps)) :
    List.Forall₂ (fun run r => buildRun run = some (Except.ok r)) (runsOf lines) ps ∧
    ps.length = (runsOf lines).length := by
  obtain ⟨qs, hps, hE, _⟩ := readLoop_runs lines ReadState.Empty [] Passport.new ps h
  rw [List.nil_append] at hps
  subst hps
  have hfa := hE rfl
  exact ⟨hfa, (List.Forall₂.length_eq hfa).symm⟩

/-- C2 witness: the statement evaluated on a five-line input with a
leading blank line and a doubled separator, yielding two records. -/
theorem c2_witness :
    List.Forall₂ (fun run r => buildRun run = some (Except.ok r))
      (runsOf [chars "", chars "cid:1", chars "", chars "", chars "cid:2"])
      [⟨[(chars "cid", PassportField.Str (chars "1"))]⟩,
       ⟨[(chars "cid", PassportField.Str (chars "2"))]⟩] ∧
    ([⟨[(chars "cid", PassportField.Str (chars "1"))]⟩,
      ⟨[(chars "cid", PassportField.Str (chars "2"))]⟩] : List Passport).length =
      (runsOf [chars "", chars "cid:1", chars "", chars "", chars "cid:2"]).length :=
  c2_one_record_per_run [chars "", chars "cid:1", chars "", chars "", chars "cid:2"]
    [⟨[(chars "cid", PassportField.Str (chars "1"))]⟩,
     ⟨[(chars "cid", PassportField.Str (chars "2"))]⟩] (by decide)
